import Mathlib

/-!
Verification of the hyva-kartta tile pipeline (the `zana` and `baran` crates).

This file gives a shallow embedding of the pure core of the pipeline:
the `.zan` tile codec (`write_zana_data` / `read_zana_data`), the string
interner (`StringTable`), the H3 partitioner loop
(`dump_all_ch_to_zana_files`), the tile-building dump
(`zana_file_from_ch_tile`), the tile server routing (`serve` /
`load_file` / `to_response`), the viewport filter
(`filter_cells_with_mercator_rectangle`) and the rasterizer's path
drawing (`draw_path`).  Machine integers are modelled as `Int` / `Nat`
(the spec rules out overflow by construction), hash maps as association
lists, and the byte layer (bincode serialization inside an LZ4 frame) is
abstracted away: the codec is modelled directly on the record it
serializes.  External geometry libraries (Mercator inversion, polygon
intersection, H3 cells) are abstracted as parameters.
-/

namespace Kartta

/-! ## Delta encoding (`delta_encoding` crate: `deltas()` / `original()`) -/

/-- Tail of the delta transform: successive differences starting from `prev`. -/
def deltasFrom (prev : Int) : List Int → List Int
  | [] => []
  | y :: ys => (y - prev) :: deltasFrom y ys

/-- `xs.deltas()`: `x₀, x₁ − x₀, x₂ − x₁, …`. -/
def deltas : List Int → List Int
  | [] => []
  | x :: xs => x :: deltasFrom x xs

/-- Tail of the inverse transform: running prefix sums from `acc`. -/
def undeltaFrom (acc : Int) : List Int → List Int
  | [] => []
  | d :: ds => (acc + d) :: undeltaFrom (acc + d) ds

/-- `ds.original()`: prefix sums, the inverse of `deltas`. -/
def undelta : List Int → List Int
  | [] => []
  | d :: ds => d :: undeltaFrom d ds

theorem undeltaFrom_deltasFrom (prev : Int) (xs : List Int) :
    undeltaFrom prev (deltasFrom prev xs) = xs := by
  induction xs generalizing prev with
  | nil => rfl
  | cons y ys ih =>
    simp only [deltasFrom, undeltaFrom]
    have h : prev + (y - prev) = y := by omega
    rw [h, ih y]

theorem undelta_deltas (xs : List Int) : undelta (deltas xs) = xs := by
  cases xs with
  | nil => rfl
  | cons x rest => simp [deltas, undelta, undeltaFrom_deltasFrom]

theorem deltasFrom_length (prev : Int) (xs : List Int) :
    (deltasFrom prev xs).length = xs.length := by
  induction xs generalizing prev with
  | nil => rfl
  | cons y ys ih => simp [deltasFrom, ih]

theorem deltas_length (xs : List Int) : (deltas xs).length = xs.length := by
  cases xs with
  | nil => rfl
  | cons x rest => simp [deltas, deltasFrom_length]

theorem undeltaFrom_length (acc : Int) (ds : List Int) :
    (undeltaFrom acc ds).length = ds.length := by
  induction ds generalizing acc with
  | nil => rfl
  | cons d rest ih => simp [undeltaFrom, ih]

theorem undelta_length (ds : List Int) : (undelta ds).length = ds.length := by
  cases ds with
  | nil => rfl
  | cons d rest => simp [undelta, undeltaFrom_length]

/-! ## Splitting on a separator

Rust's `slice::split(|t| *t == sep)` and `str::split(sep)` both yield
`n + 1` parts for `n` separators; in particular the empty input yields a
single empty part. -/

/-- Split a list at every occurrence of `sep`; separators are dropped. -/
def splitSep [DecidableEq α] (sep : α) : List α → List (List α)
  | [] => [[]]
  | x :: xs =>
    if x = sep then [] :: splitSep sep xs
    else
      match splitSep sep xs with
      | [] => [[x]]
      | g :: gs => (x :: g) :: gs

theorem splitSep_ne_nil [DecidableEq α] (sep : α) (l : List α) :
    splitSep sep l ≠ [] := by
  induction l with
  | nil => simp [splitSep]
  | cons x xs ih =>
    simp only [splitSep]
    split
    · simp
    · cases h : splitSep sep xs <;> simp

theorem splitSep_nil [DecidableEq α] (sep : α) : splitSep sep ([] : List α) = [[]] := rfl

/-- A part produced by `splitSep` never contains the separator. -/
theorem splitSep_not_mem [DecidableEq α] (sep : α) (l : List α) :
    ∀ g ∈ splitSep sep l, sep ∉ g := by
  induction l with
  | nil => simp [splitSep]
  | cons x xs ih =>
    simp only [splitSep]
    split
    · intro g hg
      rcases List.mem_cons.mp hg with h | h
      · simp [h]
      · exact ih g h
    · rename_i hx
      cases hsp : splitSep sep xs with
      | nil => exact absurd hsp (splitSep_ne_nil sep xs)
      | cons g0 gs =>
        have ihg0 : sep ∉ g0 := ih g0 (by rw [hsp]; exact List.mem_cons_self g0 gs)
        intro g hg
        rcases List.mem_cons.mp hg with h | h
        · subst h
          intro hmem
          rcases List.mem_cons.mp hmem with h' | h'
          · exact hx h'.symm
          · exact ihg0 h'
        · exact ih g (by rw [hsp]; exact List.mem_cons_of_mem g0 h)

/-- Splitting a separator-free list yields just that list. -/
theorem splitSep_of_not_mem [DecidableEq α] (sep : α) (g : List α) (h : sep ∉ g) :
    splitSep sep g = [g] := by
  induction g with
  | nil => rfl
  | cons x xs ih =>
    have hx : x ≠ sep := fun he => h (he ▸ List.mem_cons_self x xs)
    have hxs : sep ∉ xs := fun hm => h (List.mem_cons_of_mem x hm)
    simp only [splitSep, if_neg hx, ih hxs]

/-- Splitting `g ++ sep :: t` peels off the separator-free part `g`. -/
theorem splitSep_append_sep [DecidableEq α] (sep : α) (g t : List α) (h : sep ∉ g) :
    splitSep sep (g ++ sep :: t) = g :: splitSep sep t := by
  induction g with
  | nil => simp [splitSep]
  | cons x xs ih =>
    have hx : x ≠ sep := fun he => h (he ▸ List.mem_cons_self x xs)
    have hxs : sep ∉ xs := fun hm => h (List.mem_cons_of_mem x hm)
    simp only [List.cons_append, splitSep, if_neg hx, List.append_eq, ih hxs]

/-! ## Pairing (`chunks_exact(2)` followed by `(c[0], c[1])`) -/

/-- Group a flat list into consecutive pairs, dropping an odd trailing element. -/
def pairsOf : List Nat → List (Nat × Nat)
  | a :: b :: rest => (a, b) :: pairsOf rest
  | _ => []

/-- Three-way `izip!`: stops at the shortest input. -/
def zip3With (f : α → β → γ → δ) : List α → List β → List γ → List δ
  | a :: as, b :: bs, c :: cs => f a b c :: zip3With f as bs cs
  | _, _, _ => []

theorem zip3With_length (f : α → β → γ → δ) (as : List α) (bs : List β) (cs : List γ) :
    (zip3With f as bs cs).length = min (min as.length bs.length) cs.length := by
  induction as generalizing bs cs with
  | nil => simp [zip3With]
  | cons a as ih =>
    cases bs with
    | nil => simp [zip3With]
    | cons b bs =>
      cases cs with
      | nil => simp [zip3With]
      | cons c cs => simp [zip3With, ih]; omega

theorem zip3With_map (f : α → β → γ → δ) (g1 : ε → α) (g2 : ε → β) (g3 : ε → γ)
    (l : List ε) :
    zip3With f (l.map g1) (l.map g2) (l.map g3) = l.map fun e => f (g1 e) (g2 e) (g3 e) := by
  induction l with
  | nil => rfl
  | cons e es ih => simp [zip3With, ih]

/-! ## Data model (`crates/zana/src/lib.rs`, `crates/zana/src/coords.rs`) -/

/-- OSM-style fixed-point coordinate (`GeoCoord`). -/
structure GeoCoord where
  decimicro_lat : Int
  decimicro_lon : Int
deriving DecidableEq

/-- A decoded node (`ZanaNode`). -/
structure ZanaNode where
  id : Int
  coords : GeoCoord
deriving DecidableEq

/-- A decoded path (`ZanaPath`); tag ids are `u64`, modelled as `Nat`. -/
structure ZanaPath where
  nodes : List Int
  tags : List (Nat × Nat)
deriving DecidableEq

/-- A decoded object (`ZanaObj`). -/
inductive ZanaObj where
  | node (n : ZanaNode)
  | path (p : ZanaPath)
deriving DecidableEq

def ZanaObj.isNode : ZanaObj → Bool
  | .node _ => true
  | .path _ => false

def ZanaObj.isPath : ZanaObj → Bool
  | .node _ => false
  | .path _ => true

/-- Delta-encoded node columns (`ZanaDenseNodes`). -/
structure ZanaDenseNodes where
  dids : List Int
  dlats : List Int
  dlons : List Int
deriving DecidableEq

/-- Delta-encoded path columns (`ZanaDensePaths`). -/
structure ZanaDensePaths where
  dids : List Int
  dnodes : List (List Int)
  tags : List Nat
deriving DecidableEq

/-- The serialized tile record (`ZanaDenseData`); the `HashMap<String, u64>`
string table is modelled as an association list. -/
structure ZanaDenseData where
  nodes : ZanaDenseNodes
  paths : ZanaDensePaths
  string_table : List (String × Nat)
deriving DecidableEq

/-! ## StringTable (`crates/zana/src/lib.rs`, `StringTable`) -/

/-- The interner's state: a `HashMap<String, u64>` modelled as an
association list (later interns are appended at the end). -/
structure StringTable where
  map : List (String × Nat)
deriving DecidableEq

/-- `StringTable::default()`. -/
def StringTable.empty : StringTable := ⟨[]⟩

/-- `StringTable::intern`: return the existing id, or insert with id
`map.len() + 1`.  Returns the id and the updated table. -/
def StringTable.intern (t : StringTable) (s : String) : Nat × StringTable :=
  let next_idx := t.map.length + 1
  match t.map.lookup s with
  | some n => (n, t)
  | none => (next_idx, ⟨t.map ++ [(s, next_idx)]⟩)

/-- `StringTable::inverse`: the id → text view. -/
def StringTable.inverse (t : StringTable) : List (Nat × String) :=
  t.map.map fun p => (p.2, p.1)

/-- All ids stored in the table are positive; `0` is reserved. -/
def StringTable.Valid (t : StringTable) : Prop :=
  ∀ p ∈ t.map, 1 ≤ p.2

theorem StringTable.empty_valid : StringTable.empty.Valid := by
  intro p hp
  simp [StringTable.empty] at hp

theorem StringTable.mem_of_lookup (t : StringTable) (s : String) (n : Nat)
    (hl : t.map.lookup s = some n) : (s, n) ∈ t.map := by
  rcases List.lookup_eq_some_iff.mp hl with ⟨l1, l2, heq, -⟩
  rw [heq]
  exact List.mem_append.mpr (Or.inr (List.mem_cons_self _ _))

theorem StringTable.intern_pos (t : StringTable) (s : String) (hv : t.Valid) :
    1 ≤ (t.intern s).1 := by
  unfold StringTable.intern
  cases hl : t.map.lookup s with
  | some n => simpa using hv _ (t.mem_of_lookup s n hl)
  | none => simp

theorem StringTable.intern_valid (t : StringTable) (s : String) (hv : t.Valid) :
    (t.intern s).2.Valid := by
  unfold StringTable.intern
  cases hl : t.map.lookup s with
  | some n => simpa using hv
  | none =>
    intro p hp
    simp only at hp
    rcases List.mem_append.mp hp with h | h
    · exact hv p h
    · rcases List.mem_singleton.mp h with rfl
      simp

/-! ## Tag interning during encoding (`write_zana_data`, lines 337–347)

The source builds one flat `tags` vector, pushing the interned key and
value of every tag pair of a path and then a `0` after each path, and
finally pops the trailing `0`.  We build the per-path groups explicitly
and join them; `joinGroups` is the flat vector before the final pop. -/

/-- Intern one path's tag pairs; yields the flat `k₀ v₀ k₁ v₁ …` group. -/
def internPathTags (lookupTable : Nat → String) :
    StringTable → List (Nat × Nat) → List Nat × StringTable
  | st, [] => ([], st)
  | st, (key, value) :: rest =>
    let r1 := st.intern (lookupTable key)
    let r2 := r1.2.intern (lookupTable value)
    let r3 := internPathTags lookupTable r2.2 rest
    (r1.1 :: r2.1 :: r3.1, r3.2)

/-- Intern every path's tags in order; yields one group per path. -/
def internAllTags (lookupTable : Nat → String) :
    StringTable → List (List (Nat × Nat)) → List (List Nat) × StringTable
  | st, [] => ([], st)
  | st, tl :: rest =>
    let r1 := internPathTags lookupTable st tl
    let r2 := internAllTags lookupTable r1.2 rest
    (r1.1 :: r2.1, r2.2)

/-- The flat tag vector with a `0` pushed after every path's group. -/
def joinGroups : List (List Nat) → List Nat
  | [] => []
  | g :: gs => g ++ 0 :: joinGroups gs

/-- The written `tags` field: the flat vector with its trailing `0`
popped when non-empty (`if !tags.is_empty() { tags.pop(); }`). -/
def tagsStream (groups : List (List Nat)) : List Nat :=
  let raw := joinGroups groups
  if raw.isEmpty then raw else raw.dropLast

/-- Groups joined by single `0` separators, no trailing `0`. -/
def joinNoTrail : List (List Nat) → List Nat
  | [] => []
  | [g] => g
  | g :: gs => g ++ 0 :: joinNoTrail gs

theorem joinGroups_ne_nil (g : List Nat) (gs : List (List Nat)) :
    joinGroups (g :: gs) ≠ [] := by
  simp [joinGroups]

theorem dropLast_joinGroups (gs : List (List Nat)) :
    (joinGroups gs).dropLast = joinNoTrail gs := by
  induction gs with
  | nil => rfl
  | cons g gs ih =>
    cases gs with
    | nil => simp [joinGroups, joinNoTrail]
    | cons g2 gs2 =>
      rw [joinGroups, List.dropLast_append_cons,
        List.dropLast_cons_of_ne_nil (joinGroups_ne_nil g2 gs2), ih]
      rfl

theorem tagsStream_eq_joinNoTrail (groups : List (List Nat)) :
    tagsStream groups = joinNoTrail groups := by
  cases groups with
  | nil => rfl
  | cons g gs =>
    rw [tagsStream]
    simp only [List.isEmpty_iff]
    rw [if_neg (joinGroups_ne_nil g gs)]
    exact dropLast_joinGroups (g :: gs)

/-- Splitting the joined stream on `0` recovers the groups, provided no
group contains the sentinel. -/
theorem splitSep_joinNoTrail (groups : List (List Nat)) (hne : groups ≠ [])
    (h0 : ∀ g ∈ groups, 0 ∉ g) : splitSep 0 (joinNoTrail groups) = groups := by
  induction groups with
  | nil => exact absurd rfl hne
  | cons g gs ih =>
    cases gs with
    | nil =>
      simp only [joinNoTrail]
      exact splitSep_of_not_mem 0 g (h0 g (List.mem_cons_self g []))
    | cons g2 gs2 =>
      simp only [joinNoTrail]
      rw [splitSep_append_sep 0 g _ (h0 g (List.mem_cons_self g _))]
      have := ih (by simp) (fun g' hg' => h0 g' (List.mem_cons_of_mem g hg'))
      simp only [joinNoTrail] at this
      rw [this]

theorem internPathTags_pos (lookupTable : Nat → String) (st : StringTable)
    (tl : List (Nat × Nat)) (hv : st.Valid) :
    (∀ x ∈ (internPathTags lookupTable st tl).1, x ≠ 0) ∧
      (internPathTags lookupTable st tl).2.Valid := by
  induction tl generalizing st with
  | nil => exact ⟨by simp [internPathTags], hv⟩
  | cons kv rest ih =>
    obtain ⟨key, value⟩ := kv
    have h1 := st.intern_pos (lookupTable key) hv
    have hv1 := st.intern_valid (lookupTable key) hv
    have h2 := (st.intern (lookupTable key)).2.intern_pos (lookupTable value) hv1
    have hv2 := (st.intern (lookupTable key)).2.intern_valid (lookupTable value) hv1
    have ihr := ih _ hv2
    refine ⟨?_, ihr.2⟩
    intro x hx
    simp only [internPathTags, List.mem_cons] at hx
    rcases hx with rfl | rfl | hx
    · omega
    · omega
    · exact ihr.1 x hx

theorem internAllTags_pos (lookupTable : Nat → String) (st : StringTable)
    (tls : List (List (Nat × Nat))) (hv : st.Valid) :
    (∀ g ∈ (internAllTags lookupTable st tls).1, ∀ x ∈ g, x ≠ 0) ∧
      (internAllTags lookupTable st tls).2.Valid := by
  induction tls generalizing st with
  | nil => exact ⟨by simp [internAllTags], hv⟩
  | cons tl rest ih =>
    have h1 := internPathTags_pos lookupTable st tl hv
    have ihr := ih _ h1.2
    refine ⟨?_, ihr.2⟩
    intro g hg
    simp only [internAllTags, List.mem_cons] at hg
    rcases hg with rfl | hg
    · exact h1.1
    · exact ihr.1 g hg

theorem internAllTags_length (lookupTable : Nat → String) (st : StringTable)
    (tls : List (List (Nat × Nat))) :
    (internAllTags lookupTable st tls).1.length = tls.length := by
  induction tls generalizing st with
  | nil => rfl
  | cons tl rest ih => simp [internAllTags, ih]

/-- The per-pair view of `internPathTags`: intern the key then the
value of every pair, keeping the pair structure. -/
def internPairs (lookupTable : Nat → String) :
    StringTable → List (Nat × Nat) → List (Nat × Nat) × StringTable
  | st, [] => ([], st)
  | st, (key, value) :: rest =>
    let r1 := st.intern (lookupTable key)
    let r2 := r1.2.intern (lookupTable value)
    let r3 := internPairs lookupTable r2.2 rest
    ((r1.1, r2.1) :: r3.1, r3.2)

/-- Re-pairing the flat interned group recovers the interned pairs. -/
theorem pairsOf_internPathTags (lookupTable : Nat → String) (st : StringTable)
    (tl : List (Nat × Nat)) :
    pairsOf (internPathTags lookupTable st tl).1 = (internPairs lookupTable st tl).1 ∧
      (internPathTags lookupTable st tl).2 = (internPairs lookupTable st tl).2 := by
  induction tl generalizing st with
  | nil => exact ⟨rfl, rfl⟩
  | cons kv rest ih =>
    obtain ⟨key, value⟩ := kv
    have ihr := ih ((st.intern (lookupTable key)).2.intern (lookupTable value)).2
    simp only [internPathTags, internPairs, pairsOf]
    exact ⟨by rw [ihr.1], ihr.2⟩

/-! ## The tile codec (`read_zana_data` / `write_zana_data`)

The byte layer (bincode inside an LZ4 frame) is abstracted: the codec
is modelled directly on the `ZanaDenseData` record it serializes. -/

/-- `read_zana_data` (lib.rs 188–235): undelta the three node columns and
zip them (`izip!` stops at the shortest), undelta each path's node refs,
split the flat tag stream on the `0` sentinel, zip with `dnodes`, and
re-pair each group with `chunks_exact(2)`. -/
def readZanaData (data : ZanaDenseData) : List (String × Nat) × List ZanaObj :=
  let ids := undelta data.nodes.dids
  let lats := undelta data.nodes.dlats
  let lons := undelta data.nodes.dlons
  let nodeObjs := zip3With (fun id lat lon => ZanaObj.node ⟨id, ⟨lat, lon⟩⟩) ids lats lons
  let path_node_ids := data.paths.dnodes.map undelta
  let path_tags := splitSep 0 data.paths.tags
  let pathObjs :=
    List.zipWith (fun node_ids tags => ZanaObj.path ⟨node_ids, pairsOf tags⟩)
      path_node_ids path_tags
  (data.string_table, nodeObjs ++ pathObjs)

/-- `write_zana_data` (lib.rs 307–364): delta-encode the node columns and
each path's node refs, intern every tag text (looked up in
`lookup_table`) into a fresh local `StringTable`, separating paths by a
pushed `0` and popping the trailing one, and emit the record with an
empty `paths.dids`. -/
def writeZanaData (nodes : List ZanaNode) (paths : List ZanaPath)
    (lookupTable : Nat → String) : ZanaDenseData :=
  let dnodes := paths.map fun w => deltas w.nodes
  let node_ids := nodes.map fun n => n.id
  let node_lats := nodes.map fun n => n.coords.decimicro_lat
  let node_lons := nodes.map fun n => n.coords.decimicro_lon
  let dense_nodes : ZanaDenseNodes :=
    ⟨deltas node_ids, deltas node_lats, deltas node_lons⟩
  let r := internAllTags lookupTable StringTable.empty (paths.map fun w => w.tags)
  { nodes := dense_nodes
    paths := { dids := [], dnodes := dnodes, tags := tagsStream r.1 }
    string_table := r.2.map }

/-! ## The tile-building dump (`zana_file_from_ch_tile`, baran/main.rs 272–405)

The staging queries are abstracted: the function is modelled from the
point where the queried `paths` and `nodes` rows and the global string
table's inverse are in hand.  It returns `none` when no file is written
(the early return on an empty path list). -/

/-- A row of the staged `paths` relation (`CHPath`). -/
structure CHPath where
  id : Int
  nodes : List Int
  tags : List (Nat × Nat)
deriving DecidableEq

/-- A row of the staged `nodes` relation (`CHNode`). -/
structure CHNode where
  id : Int
  decimicro_lat : Int
  decimicro_lon : Int
  cell12 : Nat
  cell3 : Nat
  tags : List (Nat × Nat)
deriving DecidableEq

/-- The record `zana_file_from_ch_tile` serializes into `h3/{cell}.zan`;
`none` when `paths` is empty and no file is written.  Unlike
`write_zana_data`, `paths.dids` is the delta-encoded path id column. -/
def zanaFileFromChTile (paths : List CHPath) (nodes : List CHNode)
    (chReverseTable : Nat → String) : Option ZanaDenseData :=
  if paths.isEmpty then none
  else
    let node_ids := nodes.map fun n => n.id
    let node_lats := nodes.map fun n => n.decimicro_lat
    let node_lons := nodes.map fun n => n.decimicro_lon
    let dense_nodes : ZanaDenseNodes :=
      ⟨deltas node_ids, deltas node_lats, deltas node_lons⟩
    let dids := deltas (paths.map fun w => w.id)
    let dnodes := paths.map fun w => deltas w.nodes
    let r := internAllTags chReverseTable StringTable.empty (paths.map fun w => w.tags)
    some
      { nodes := dense_nodes
        paths := { dids := dids, dnodes := dnodes, tags := tagsStream r.1 }
        string_table := r.2.map }

/-! ## Rasterizer path drawing (`draw_path`, lib.rs 156–186)

Offsetting, scaling and stroking are not modelled; the result records
which resolved coordinates end up in the stroked polyline.  `none`
models a panic: when no node ref resolves, `node_coords` is empty and
the slice expression `&node_coords[1..]` is out of range. -/

def drawPath (p : ZanaPath) (node_id_hashmap : Int → Option GeoCoord) :
    Option (List GeoCoord) :=
  let node_coords := p.nodes.filterMap node_id_hashmap
  match node_coords with
  | [] => none
  | [_] => some []
  | _ => some node_coords

/-! ## Tile server (`server.rs`: `serve`, `load_file`, `to_response`)

URLs and paths are modelled as `List Char`; the filesystem as a
predicate giving which full paths can be opened; `list_db_files` as a
pre-supplied result.  `Except.error` stands for an `anyhow` error. -/

/-- `load_file`: reject a path containing `'/'`, then open `h3/{path}`. -/
def loadFile (fs : List Char → Bool) (path : List Char) : Except Unit Unit :=
  if path.contains '/' then Except.error ()
  else if fs ("h3/".data ++ path) then Except.ok ()
  else Except.error ()

/-- `to_response`: a success responds as-is (status 200 for a loaded
file); every error responds with status 500. -/
def toResponse : Except Unit Unit → Nat
  | Except.ok _ => 200
  | Except.error _ => 500

/-- One request of the `serve` loop: strip one leading `'/'`, split the
URL on `'/'`, and dispatch; the catch-all arm responds 404. -/
def handleRequest (fs : List Char → Bool) (listResult : Except Unit Unit)
    (url : List Char) : Nat :=
  let stripped := if url.head? = some '/' then url.tail else url
  match splitSep '/' stripped with
  | [a] => if a = "list".data then toResponse listResult else 404
  | [a, p] => if a = "get".data then toResponse (loadFile fs p) else 404
  | _ => 404

/-! ## Partitioner (`dump_all_ch_to_zana_files`, baran/main.rs 76–109)

Cells are abstract; the staging count, the resolution, and
`cell.children(res)` are parameters.  The worklist is a `Vec`: `pop`
takes the last element and `extend` appends. -/

def MAX_NODES_PER_CELL : Nat := 100000

/-- `Resolution::Twelve`, as a numeric resolution. -/
def MIN_RESOLUTION : Nat := 12

/-- What the loop body does with a popped cell. -/
inductive DumpAction where
  | drop
  | split
  | emit
deriving DecidableEq

/-- The split decision of the loop body. -/
def dumpDecision (node_count : Nat) (res : Nat) : DumpAction :=
  if node_count = 0 then .drop
  else if node_count > MAX_NODES_PER_CELL ∧ res < MIN_RESOLUTION then .split
  else .emit

/-- One iteration of the `while let Some(cell) = cells_to_process.pop()`
loop: `none` when the worklist is empty; otherwise the new worklist and
the cell handed to the tile builder, if any.  A split enqueues
`cell.children(cell.resolution().succ())`. -/
def dumpStep {Cell : Type} (count : Cell → Nat) (res : Cell → Nat)
    (children : Cell → Nat → List Cell) (worklist : List Cell) :
    Option (List Cell × Option Cell) :=
  match worklist.getLast? with
  | none => none
  | some cell =>
    let rest := worklist.dropLast
    match dumpDecision (count cell) (res cell) with
    | .drop => some (rest, none)
    | .split => some (rest ++ children cell (res cell + 1), none)
    | .emit => some (rest, some cell)

/-! ## Viewport filter (`filter_cells_with_mercator_rectangle`, lib.rs 237–271)

Scalar coordinates are modelled as `Int` (only negation is applied to
them here); the Mercator inversion, polygon construction, cell
geometry and the intersection test are abstract parameters (they live
in the `d3_geo_rs`, `geo` and `h3o` dependencies). -/

/-- `PicMercator`: Mercator with flipped Y. -/
structure PicMercator where
  x : Int
  y : Int
deriving DecidableEq

/-- `PicMercatorBoundingBox`. -/
structure PicMercatorBoundingBox where
  top_left : PicMercator
  bottom_right : PicMercator
deriving DecidableEq

/-- Undo the flipped Y of the four corners, invert them through
Mercator, build the geographic polygon, and keep the cells whose
geometry intersects it. -/
def filterCellsWithMercatorRectangle {Cell Pt Poly Geom : Type}
    (invert : Int × Int → Pt) (mkPolygon : Pt → Pt → Pt → Pt → Poly)
    (toGeom : Cell → Geom) (intersects : Poly → Geom → Bool)
    (cells : List Cell) (bbox : PicMercatorBoundingBox) : List Cell :=
  let mercator_top := -bbox.top_left.y
  let mercator_left := bbox.top_left.x
  let mercator_right := bbox.bottom_right.x
  let mercator_bottom := -bbox.bottom_right.y
  let topleft := invert (mercator_left, mercator_top)
  let topright := invert (mercator_right, mercator_top)
  let bottomleft := invert (mercator_left, mercator_bottom)
  let bottomright := invert (mercator_right, mercator_bottom)
  let geo_polygon := mkPolygon topleft topright bottomright bottomleft
  cells.filter fun c => intersects geo_polygon (toGeom c)

/-! ## Claim theorems -/

/-- Claim C7: the delta transform used by the codec maps `x₀, x₁, …` to
`x₀, x₁ − x₀, x₂ − x₁, …`, and the prefix-sum inverse applied during
decoding restores every non-empty sequence exactly; ids `[5, 5, 5]` are
stored as deltas `[5, 0, 0]` and decode back to `[5, 5, 5]`. -/
theorem delta_roundtrip (s : List Int) (h : s ≠ []) :
    undelta (deltas s) = s ∧ deltas [5, 5, 5] = [5, 0, 0] :=
  ⟨undelta_deltas s, by decide⟩

/-- Witness for C7 at `s = [5, 5, 5]`. -/
theorem delta_roundtrip_witness :
    ([5, 5, 5] : List Int) ≠ [] ∧
      (undelta (deltas [5, 5, 5]) = [5, 5, 5] ∧ deltas [5, 5, 5] = [5, 0, 0]) :=
  ⟨by decide, delta_roundtrip [5, 5, 5] (by decide)⟩

/-- Claim C3 (code bug): `draw_path` filters out node refs absent from the
node-id map and still draws the path when at least two refs remain, but
when no ref resolves it panics (the slice `&node_coords[1..]` is out of
range on the empty vector, modelled as `none`) instead of skipping the
path. -/
theorem drawPath_dangling_refs :
    drawPath ⟨[99], []⟩ (fun _ => none) = none ∧
    drawPath ⟨[1, 99, 2], []⟩
        (fun n => if n = 1 then some ⟨10, 10⟩ else if n = 2 then some ⟨20, 20⟩ else none) =
      some [⟨10, 10⟩, ⟨20, 20⟩] ∧
    drawPath ⟨[1, 99], []⟩ (fun n => if n = 1 then some ⟨10, 10⟩ else none) = some [] := by
  decide

/-- Claim C5: a popped cell with a non-zero node count is split if and
only if its count strictly exceeds `MAX_NODES_PER_CELL` and its
resolution is strictly below `MIN_RESOLUTION`; a split enqueues the
children at the next finer resolution and emits no tile, a cell with
exactly `MAX_NODES_PER_CELL` nodes is handed to the tile builder, and a
cell at resolution 12 is never split. -/
theorem partitioner_split_contract {Cell : Type} (count : Cell → Nat) (res : Cell → Nat)
    (children : Cell → Nat → List Cell) (worklist : List Cell) (cell : Cell)
    (h : count cell ≠ 0) :
    (dumpDecision (count cell) (res cell) = .split ↔
      count cell > MAX_NODES_PER_CELL ∧ res cell < MIN_RESOLUTION) ∧
    (count cell = MAX_NODES_PER_CELL → dumpDecision (count cell) (res cell) = .emit) ∧
    (res cell = MIN_RESOLUTION → dumpDecision (count cell) (res cell) ≠ .split) ∧
    (count cell > MAX_NODES_PER_CELL → res cell < MIN_RESOLUTION →
      dumpStep count res children (worklist ++ [cell]) =
        some (worklist ++ children cell (res cell + 1), none)) ∧
    (dumpDecision (count cell) (res cell) = .emit →
      dumpStep count res children (worklist ++ [cell]) = some (worklist, some cell)) := by
  have hgl : (worklist ++ [cell]).getLast? = some cell := List.getLast?_concat worklist
  have hdl : (worklist ++ [cell]).dropLast = worklist := List.dropLast_concat
  have step_eq : ∀ a, dumpDecision (count cell) (res cell) = a →
      dumpStep count res children (worklist ++ [cell]) =
        some ((match a with
                | .split => worklist ++ children cell (res cell + 1)
                | _ => worklist),
              (match a with
                | .emit => some cell
                | _ => none)) := by
    intro a ha
    simp only [dumpStep, hgl, hdl, ha]
    cases a <;> rfl
  refine ⟨⟨?_, ?_⟩, ?_, ?_, ?_, ?_⟩
  · intro hs
    by_contra hc
    unfold dumpDecision at hs
    rw [if_neg h, if_neg hc] at hs
    exact DumpAction.noConfusion hs
  · intro hc
    unfold dumpDecision
    rw [if_neg h, if_pos hc]
  · intro hcnt
    unfold dumpDecision
    rw [if_neg h, if_neg fun hand => absurd (hcnt ▸ hand.1) (lt_irrefl _)]
  · intro hres
    unfold dumpDecision
    rw [if_neg h, if_neg fun hand => absurd (hres ▸ hand.2) (lt_irrefl _)]
    exact DumpAction.noConfusion
  · intro h1 h2
    exact step_eq .split (by unfold dumpDecision; rw [if_neg h, if_pos ⟨h1, h2⟩])
  · intro he
    exact step_eq .emit he

/-- Witness for C5: a cell with 100001 nodes at resolution 5 is split and
its children at resolution 6 replace it on the worklist. -/
theorem partitioner_split_contract_witness :
    ((100001 : Nat) ≠ 0) ∧
      dumpStep (fun _ : Nat => 100001) (fun _ : Nat => 5) (fun c r => [c + r])
          ([] ++ [3]) = some ([] ++ [3 + 6], none) :=
  ⟨by decide,
    (partitioner_split_contract (fun _ : Nat => 100001) (fun _ : Nat => 5)
        (fun c r => [c + r]) [] 3 (by decide)).2.2.2.1 (by decide) (by decide)⟩

/-- Claim C6: `intern` returns the already-assigned id when the string is
present and otherwise inserts it with id `current size + 1`; under the
table's invariant (all stored ids positive) it never returns 0, it is
idempotent, and on the empty table `intern "a" = 1`, `intern "b" = 2`,
`intern "a" = 1` with inverse view `{1 : "a", 2 : "b"}`. -/
theorem stringTable_intern_contract (t : StringTable) (s : String) (n : Nat)
    (hv : t.Valid) :
    (t.map.lookup s = some n → t.intern s = (n, t)) ∧
    (t.map.lookup s = none →
      (t.intern s).1 = t.map.length + 1 ∧
        (t.intern s).2.map = t.map ++ [(s, t.map.length + 1)]) ∧
    (t.intern s).1 ≠ 0 ∧
    (t.intern s).2.Valid ∧
    (t.intern s).2.intern s = ((t.intern s).1, (t.intern s).2) ∧
    ((StringTable.empty.intern "a").1 = 1 ∧
      (((StringTable.empty.intern "a").2).intern "b").1 = 2 ∧
      (((((StringTable.empty.intern "a").2).intern "b").2).intern "a").1 = 1 ∧
      ((((StringTable.empty.intern "a").2).intern "b").2).inverse =
        [(1, "a"), (2, "b")]) := by
  refine ⟨?_, ?_, ?_, t.intern_valid s hv, ?_, by decide⟩
  · intro hl
    unfold StringTable.intern
    rw [hl]
  · intro hl
    unfold StringTable.intern
    rw [hl]
    exact ⟨rfl, rfl⟩
  · have := t.intern_pos s hv
    omega
  · cases hl : t.map.lookup s with
    | some m =>
      have he : t.intern s = (m, t) := by unfold StringTable.intern; rw [hl]
      rw [he]
      exact he
    | none =>
      have he : t.intern s = (t.map.length + 1, ⟨t.map ++ [(s, t.map.length + 1)]⟩) := by
        unfold StringTable.intern
        rw [hl]
      rw [he]
      show StringTable.intern _ s = _
      unfold StringTable.intern
      rw [show (t.map ++ [(s, t.map.length + 1)]).lookup s = some (t.map.length + 1) by
        rw [List.lookup_append, hl, Option.none_or, List.lookup_cons_self]]

/-- Witness for C6 on the empty table and the string `"a"`. -/
theorem stringTable_intern_contract_witness :
    StringTable.empty.Valid ∧
      ((StringTable.empty.intern "a").1 = 1 ∧
        (((StringTable.empty.intern "a").2).intern "b").1 = 2 ∧
        (((((StringTable.empty.intern "a").2).intern "b").2).intern "a").1 = 1 ∧
        ((((StringTable.empty.intern "a").2).intern "b").2).inverse =
          [(1, "a"), (2, "b")]) :=
  ⟨StringTable.empty_valid,
    (stringTable_intern_contract StringTable.empty "a" 0 StringTable.empty_valid).2.2.2.2.2⟩

/-- Claim C9: the viewport filter keeps exactly the cells whose geometry
intersects the geographic polygon built from the box's four corners
inverted through Mercator with the flipped Y undone, and it keeps them
in input order (the result is a sublist of the input).  The Mercator
inversion, polygon construction and intersection test are the abstract
parameters. -/
theorem filterCells_viewport {Cell Pt Poly Geom : Type}
    (invert : Int × Int → Pt) (mkPolygon : Pt → Pt → Pt → Pt → Poly)
    (toGeom : Cell → Geom) (intersects : Poly → Geom → Bool)
    (cells : List Cell) (bbox : PicMercatorBoundingBox)
    (hx : bbox.top_left.x < bbox.bottom_right.x)
    (hy : bbox.top_left.y < bbox.bottom_right.y) :
    (filterCellsWithMercatorRectangle invert mkPolygon toGeom intersects
        cells bbox).Sublist cells ∧
    ∀ c : Cell,
      c ∈ filterCellsWithMercatorRectangle invert mkPolygon toGeom intersects cells bbox ↔
        c ∈ cells ∧
          intersects
              (mkPolygon (invert (bbox.top_left.x, -bbox.top_left.y))
                (invert (bbox.bottom_right.x, -bbox.top_left.y))
                (invert (bbox.bottom_right.x, -bbox.bottom_right.y))
                (invert (bbox.top_left.x, -bbox.bottom_right.y)))
              (toGeom c) = true := by
  unfold filterCellsWithMercatorRectangle
  exact ⟨List.filter_sublist cells, fun c => List.mem_filter⟩

/-- Witness for C9: cells `A = 0`, `B = 1`, `C = 2` where the abstract
intersection test accepts `A` (inside) and `B` (straddling) but not `C`
(outside); the filter keeps `{A, B}` in input order. -/
theorem filterCells_viewport_witness :
    ((0 : Int) < 10 ∧ (0 : Int) < 10) ∧
      (filterCellsWithMercatorRectangle (fun q => q) (fun a b c d => (a, b, c, d))
          (fun c : Nat => c) (fun _ c => c ≤ 1) [0, 1, 2]
          ⟨⟨0, 0⟩, ⟨10, 10⟩⟩).Sublist [0, 1, 2] ∧
      filterCellsWithMercatorRectangle (fun q => q) (fun a b c d => (a, b, c, d))
          (fun c : Nat => c) (fun _ c => c ≤ 1) [0, 1, 2] ⟨⟨0, 0⟩, ⟨10, 10⟩⟩ = [0, 1] :=
  ⟨⟨by decide, by decide⟩,
    (filterCells_viewport (fun q => q) (fun a b c d => (a, b, c, d)) (fun c : Nat => c)
        (fun _ c => c ≤ 1) [0, 1, 2] ⟨⟨0, 0⟩, ⟨10, 10⟩⟩ (by decide) (by decide)).1,
    by decide⟩

theorem mem_zip3With {f : α → β → γ → δ} {x : δ} :
    ∀ {as : List α} {bs : List β} {cs : List γ},
      x ∈ zip3With f as bs cs → ∃ a b c, x = f a b c := by
  intro as
  induction as with
  | nil => intro bs cs h; exact absurd h (List.not_mem_nil x)
  | cons a as ih =>
    intro bs cs h
    cases bs with
    | nil => exact absurd h (List.not_mem_nil x)
    | cons b bs =>
      cases cs with
      | nil => exact absurd h (List.not_mem_nil x)
      | cons c cs =>
        rcases List.mem_cons.mp h with h | h
        · exact ⟨a, b, c, h⟩
        · exact ih h

theorem of_mem_zipWith {f : α → β → γ} {x : γ} :
    ∀ {as : List α} {bs : List β}, x ∈ List.zipWith f as bs → ∃ a b, x = f a b := by
  intro as
  induction as with
  | nil => intro bs h; exact absurd h (List.not_mem_nil x)
  | cons a as ih =>
    intro bs h
    cases bs with
    | nil => exact absurd h (List.not_mem_nil x)
    | cons b bs =>
      rw [List.zipWith_cons_cons] at h
      rcases List.mem_cons.mp h with h | h
      · exact ⟨a, b, h⟩
      · exact ih h

/-- Claim C10: `read_zana_data` zips the three undelta'd node columns with
`izip!`, so it returns exactly `min (|dids|, |dlats|, |dlons|)` nodes,
ignoring surplus entries of longer columns, and it zips `dnodes` with the
sentinel-separated tag groups, so it returns
`min (|dnodes|, #groups)` paths; the function is total (no failure). -/
theorem readZanaData_counts (data : ZanaDenseData) :
    ((readZanaData data).2.countP ZanaObj.isNode) =
      min (min data.nodes.dids.length data.nodes.dlats.length) data.nodes.dlons.length ∧
    ((readZanaData data).2.countP ZanaObj.isPath) =
      min data.paths.dnodes.length (splitSep 0 data.paths.tags).length := by
  have hN : ∀ x ∈ zip3With (fun id lat lon => ZanaObj.node ⟨id, ⟨lat, lon⟩⟩)
      (undelta data.nodes.dids) (undelta data.nodes.dlats) (undelta data.nodes.dlons),
      ZanaObj.isNode x = true := by
    intro x hx
    rcases mem_zip3With hx with ⟨a, b, c, rfl⟩
    rfl
  have hP : ∀ x ∈ List.zipWith (fun node_ids tags => ZanaObj.path ⟨node_ids, pairsOf tags⟩)
      (data.paths.dnodes.map undelta) (splitSep 0 data.paths.tags),
      ZanaObj.isPath x = true := by
    intro x hx
    rcases of_mem_zipWith hx with ⟨a, b, rfl⟩
    rfl
  unfold readZanaData
  simp only [List.countP_append]
  constructor
  · rw [List.countP_eq_length.mpr hN,
      List.countP_eq_zero.mpr (fun x hx => by
        rcases of_mem_zipWith hx with ⟨a, b, rfl⟩
        simp [ZanaObj.isNode]),
      zip3With_length, undelta_length, undelta_length, undelta_length]
    omega
  · rw [List.countP_eq_length.mpr hP,
      List.countP_eq_zero.mpr (fun x hx => by
        rcases mem_zip3With hx with ⟨a, b, c, rfl⟩
        simp [ZanaObj.isPath]),
      List.length_zipWith, List.length_map]
    simp

/-- Claim C2 (counterexample): a staging state with one path (id 7) whose
tile is written; the record's `dense_paths.dids` is `[7]`, not empty. -/
theorem chTile_dids_counterexample :
    (zanaFileFromChTile [⟨7, [1, 2], [(1, 1)]⟩] [] (fun _ => "k")).map
        (fun d => d.paths.dids) = some [7] ∧ ([7] : List Int) ≠ [] := by decide

/-- Claim C2 (amended): whenever a tile record is written to
`h3/{cell}.zan` (the path list is non-empty), its `dense_paths.dids`
field is the delta encoding of the queried paths' ids — in particular it
is never empty. -/
theorem chTile_dids_amended (paths : List CHPath) (nodes : List CHNode)
    (chReverseTable : Nat → String) (h : paths ≠ []) :
    (zanaFileFromChTile paths nodes chReverseTable).map (fun d => d.paths.dids) =
      some (deltas (paths.map fun w => w.id)) ∧
    deltas (paths.map fun w => w.id) ≠ [] := by
  constructor
  · unfold zanaFileFromChTile
    rw [if_neg (by simpa using h)]
    rfl
  · cases paths with
    | nil => exact absurd rfl h
    | cons p ps => simp [deltas]

/-- Witness for the amended C2 at the one-path staging state. -/
theorem chTile_dids_amended_witness :
    ([(⟨7, [1, 2], [(1, 1)]⟩ : CHPath)] ≠ []) ∧
      ((zanaFileFromChTile [⟨7, [1, 2], [(1, 1)]⟩] [] (fun _ => "k")).map
          (fun d => d.paths.dids) =
        some (deltas ([(⟨7, [1, 2], [(1, 1)]⟩ : CHPath)].map fun w => w.id)) ∧
      deltas ([(⟨7, [1, 2], [(1, 1)]⟩ : CHPath)].map fun w => w.id) ≠ []) :=
  ⟨by decide, chTile_dids_amended [⟨7, [1, 2], [(1, 1)]⟩] [] (fun _ => "k") (by decide)⟩

/-- Flatten a pair list into the `k₀ v₀ k₁ v₁ …` stream. -/
def flatPairs : List (Nat × Nat) → List Nat
  | [] => []
  | (k, v) :: rest => k :: v :: flatPairs rest

theorem internPathTags_eq_flatPairs (lookupTable : Nat → String) (st : StringTable)
    (tl : List (Nat × Nat)) :
    (internPathTags lookupTable st tl).1 = flatPairs (internPairs lookupTable st tl).1 := by
  induction tl generalizing st with
  | nil => rfl
  | cons kv rest ih =>
    obtain ⟨k, v⟩ := kv
    simp only [internPathTags, internPairs, flatPairs]
    rw [ih]

/-- Claim C8 (counterexample): the path carries the tag pair `(2, 1)` but
the written `tags` field holds the locally re-interned pair `(1, 2)`:
the field does not consist of the paths' own (key id, value id) pairs. -/
theorem writeTags_counterexample :
    (writeZanaData [] [⟨[5], [(2, 1)]⟩] (fun n => if n = 1 then "x" else "y")).paths.tags =
        [1, 2] ∧
      ([1, 2] : List Nat) ≠ [2, 1] := by decide

/-- Claim C8 (amended): for a non-empty path list the written `tags`
field is the per-path groups joined by single `0` sentinels with no
trailing `0`, where each group is the flattening of the path's tag
pairs re-interned through the local string table; splitting on the
sentinel recovers the groups, whose number equals the number of `dnodes`
entries. -/
theorem writeTags_sentinel_structure (nodes : List ZanaNode) (paths : List ZanaPath)
    (lookupTable : Nat → String) (h : paths ≠ []) :
    (writeZanaData nodes paths lookupTable).paths.tags =
      joinNoTrail (internAllTags lookupTable StringTable.empty
        (paths.map fun w => w.tags)).1 ∧
    splitSep 0 ((writeZanaData nodes paths lookupTable).paths.tags) =
      (internAllTags lookupTable StringTable.empty (paths.map fun w => w.tags)).1 ∧
    (internAllTags lookupTable StringTable.empty (paths.map fun w => w.tags)).1.length =
      (writeZanaData nodes paths lookupTable).paths.dnodes.length ∧
    (∀ st tl, (internPathTags lookupTable st tl).1 =
      flatPairs (internPairs lookupTable st tl).1) := by
  have htags : (writeZanaData nodes paths lookupTable).paths.tags =
      tagsStream (internAllTags lookupTable StringTable.empty
        (paths.map fun w => w.tags)).1 := rfl
  have hlen := internAllTags_length lookupTable StringTable.empty
    (paths.map fun w => w.tags)
  have hne : (internAllTags lookupTable StringTable.empty
      (paths.map fun w => w.tags)).1 ≠ [] := by
    intro hcon
    rw [hcon] at hlen
    cases paths with
    | nil => exact h rfl
    | cons p ps => simp at hlen
  have h0 : ∀ g ∈ (internAllTags lookupTable StringTable.empty
      (paths.map fun w => w.tags)).1, 0 ∉ g := by
    intro g hg hmem
    exact (internAllTags_pos lookupTable StringTable.empty (paths.map fun w => w.tags)
      StringTable.empty_valid).1 g hg 0 hmem rfl
  refine ⟨?_, ?_, ?_, fun st tl => internPathTags_eq_flatPairs lookupTable st tl⟩
  · rw [htags, tagsStream_eq_joinNoTrail]
  · rw [htags, tagsStream_eq_joinNoTrail]
    exact splitSep_joinNoTrail _ hne h0
  · rw [hlen]
    show (paths.map fun w => w.tags).length = (paths.map fun w => deltas w.nodes).length
    rw [List.length_map, List.length_map]

/-- Witness for the amended C8 at the one-path input. -/
theorem writeTags_sentinel_structure_witness :
    ([(⟨[5], [(2, 1)]⟩ : ZanaPath)] : List ZanaPath) ≠ [] ∧
      splitSep 0 ((writeZanaData [] [⟨[5], [(2, 1)]⟩]
          (fun n => if n = 1 then "x" else "y")).paths.tags) =
        (internAllTags (fun n => if n = 1 then "x" else "y") StringTable.empty
          ([(⟨[5], [(2, 1)]⟩ : ZanaPath)].map fun w => w.tags)).1 :=
  ⟨by decide,
    (writeTags_sentinel_structure [] [⟨[5], [(2, 1)]⟩]
      (fun n => if n = 1 then "x" else "y") (by decide)).2.1⟩

/-- Claim C1 (counterexample): nodes sorted (vacuously) and a lookup
table covering ids 1 and 2; the path's tag pair `(2, 1)` decodes as
`(1, 2)` after the encoder's local re-interning, so the decoded objects
are not the original paths with their original tag pairs. -/
theorem codec_roundtrip_counterexample :
    (readZanaData (writeZanaData [] [⟨[], [(2, 1)]⟩]
        (fun n => if n = 1 then "a" else "b"))).2 =
      [ZanaObj.path ⟨[], [(1, 2)]⟩] ∧
    ([ZanaObj.path ⟨[], [(1, 2)]⟩] : List ZanaObj) ≠ [ZanaObj.path ⟨[], [(2, 1)]⟩] := by
  decide

/-- Claim C1 (amended): decoding the record produced by encoding returns
the nodes in order, then the paths in order, each with its original node
refs and with its tag pairs re-interned through the local string table
built during encoding, and exactly that local table. -/
theorem codec_roundtrip_renumbered (nodes : List ZanaNode) (paths : List ZanaPath)
    (lookupTable : Nat → String)
    (hsorted : nodes.Pairwise fun a b => a.id < b.id) :
    readZanaData (writeZanaData nodes paths lookupTable) =
      ((internAllTags lookupTable StringTable.empty (paths.map fun w => w.tags)).2.map,
        nodes.map ZanaObj.node ++
          List.zipWith (fun p g => ZanaObj.path ⟨p.nodes, pairsOf g⟩) paths
            (internAllTags lookupTable StringTable.empty
              (paths.map fun w => w.tags)).1) := by
  refine Prod.ext rfl ?_
  show zip3With (fun id lat lon => ZanaObj.node ⟨id, ⟨lat, lon⟩⟩)
        (undelta (deltas (nodes.map fun n => n.id)))
        (undelta (deltas (nodes.map fun n => n.coords.decimicro_lat)))
        (undelta (deltas (nodes.map fun n => n.coords.decimicro_lon))) ++
      List.zipWith (fun node_ids tags => ZanaObj.path ⟨node_ids, pairsOf tags⟩)
        ((paths.map fun w => deltas w.nodes).map undelta)
        (splitSep 0 (tagsStream (internAllTags lookupTable StringTable.empty
          (paths.map fun w => w.tags)).1)) = _
  have h1 : zip3With (fun id lat lon => ZanaObj.node ⟨id, ⟨lat, lon⟩⟩)
      (undelta (deltas (nodes.map fun n => n.id)))
      (undelta (deltas (nodes.map fun n => n.coords.decimicro_lat)))
      (undelta (deltas (nodes.map fun n => n.coords.decimicro_lon))) =
      nodes.map ZanaObj.node := by
    rw [undelta_deltas, undelta_deltas, undelta_deltas, zip3With_map]
  have h2 : (paths.map fun w => deltas w.nodes).map undelta =
      paths.map fun w => w.nodes := by
    rw [List.map_map]
    exact List.map_congr_left fun w _ => undelta_deltas w.nodes
  rw [h1, h2]
  cases hp : paths with
  | nil => rfl
  | cons p ps =>
    have hlen := internAllTags_length lookupTable StringTable.empty
      ((p :: ps).map fun w => w.tags)
    have hne : (internAllTags lookupTable StringTable.empty
        ((p :: ps).map fun w => w.tags)).1 ≠ [] := by
      intro hcon
      rw [hcon] at hlen
      simp at hlen
    have h0 : ∀ g ∈ (internAllTags lookupTable StringTable.empty
        ((p :: ps).map fun w => w.tags)).1, 0 ∉ g := by
      intro g hg hmem
      exact (internAllTags_pos lookupTable StringTable.empty ((p :: ps).map fun w => w.tags)
        StringTable.empty_valid).1 g hg 0 hmem rfl
    rw [tagsStream_eq_joinNoTrail, splitSep_joinNoTrail _ hne h0,
      List.zipWith_map_left]

/-- Witness for the amended C1 at the library's own smoke-test tile. -/
theorem codec_roundtrip_renumbered_witness :
    (([⟨1, ⟨6, 6⟩⟩, ⟨2, ⟨7, 6⟩⟩, ⟨3, ⟨8, 6⟩⟩] : List ZanaNode).Pairwise
        fun a b => a.id < b.id) ∧
      readZanaData (writeZanaData [⟨1, ⟨6, 6⟩⟩, ⟨2, ⟨7, 6⟩⟩, ⟨3, ⟨8, 6⟩⟩]
          [⟨[1, 2, 3], [(1, 2)]⟩] (fun n => if n = 1 then "map" else "q3dm5")) =
        ((internAllTags (fun n => if n = 1 then "map" else "q3dm5") StringTable.empty
            ([(⟨[1, 2, 3], [(1, 2)]⟩ : ZanaPath)].map fun w => w.tags)).2.map,
          ([⟨1, ⟨6, 6⟩⟩, ⟨2, ⟨7, 6⟩⟩, ⟨3, ⟨8, 6⟩⟩] : List ZanaNode).map ZanaObj.node ++
            List.zipWith (fun p g => ZanaObj.path ⟨p.nodes, pairsOf g⟩)
              [(⟨[1, 2, 3], [(1, 2)]⟩ : ZanaPath)]
              (internAllTags (fun n => if n = 1 then "map" else "q3dm5") StringTable.empty
                ([(⟨[1, 2, 3], [(1, 2)]⟩ : ZanaPath)].map fun w => w.tags)).1) :=
  ⟨by decide,
    codec_roundtrip_renumbered [⟨1, ⟨6, 6⟩⟩, ⟨2, ⟨7, 6⟩⟩, ⟨3, ⟨8, 6⟩⟩]
      [⟨[1, 2, 3], [(1, 2)]⟩] (fun n => if n = 1 then "map" else "q3dm5") (by decide)⟩

/-- Claim C4 (counterexample): with no tiles on disk, a URL whose file
argument contains `'/'` never reaches `load_file` — the router's
catch-all answers 404, not the claimed 400 — and a request for a missing
tile is answered 500, not the claimed 404. -/
theorem server_status_counterexample :
    handleRequest (fun _ => false) (Except.ok ()) "/get/a/b".data = 404 ∧
      (404 : Nat) ≠ 400 ∧
      handleRequest (fun _ => false) (Except.ok ()) "/get/missing.zan".data = 500 ∧
      (500 : Nat) ≠ 404 := by
  decide

/-- Claim C4 (amended): a file argument containing `'/'` cannot be
produced by the router (URL segments are separator-free), `load_file`
rejects such an argument with an error, every `load_file` error —
including a tile missing on disk — is answered with status 500 by
`to_response`, and every response status is 200, 404 or 500. -/
theorem server_responses (fs : List Char → Bool) (listResult : Except Unit Unit)
    (p url : List Char) :
    (p.contains '/' = true → toResponse (loadFile fs p) = 500) ∧
    (fs ("h3/".data ++ p) = false → toResponse (loadFile fs p) = 500) ∧
    (∀ g ∈ splitSep '/' url, '/' ∉ g) ∧
    (handleRequest fs listResult url = 200 ∨ handleRequest fs listResult url = 404 ∨
      handleRequest fs listResult url = 500) := by
  have hto : ∀ r : Except Unit Unit, toResponse r = 200 ∨ toResponse r = 500 := by
    intro r
    cases r with
    | ok u => exact Or.inl rfl
    | error e => exact Or.inr rfl
  refine ⟨?_, ?_, splitSep_not_mem '/' url, ?_⟩
  · intro hc
    have hlf : loadFile fs p = Except.error () := by
      unfold loadFile
      rw [if_pos hc]
    rw [hlf]
    rfl
  · intro hf
    by_cases hc : p.contains '/' = true
    · have hlf : loadFile fs p = Except.error () := by
        unfold loadFile
        rw [if_pos hc]
      rw [hlf]
      rfl
    · have hlf : loadFile fs p = Except.error () := by
        unfold loadFile
        rw [if_neg hc, if_neg (by rw [hf]; exact Bool.false_ne_true)]
      rw [hlf]
      rfl
  · simp only [handleRequest]
    split
    · split
      · rcases hto listResult with h | h
        · exact Or.inl h
        · exact Or.inr (Or.inr h)
      · exact Or.inr (Or.inl rfl)
    · rename_i a q hq
      split
      · rcases hto (loadFile fs q) with h | h
        · exact Or.inl h
        · exact Or.inr (Or.inr h)
      · exact Or.inr (Or.inl rfl)
    · exact Or.inr (Or.inl rfl)

/-- Witness for the amended C4: the slash-containing argument `"a/b"` is
rejected by `load_file` and answered 500, and a `/list` request on a
healthy listing is answered with one of the three statuses. -/
theorem server_responses_witness :
    ("a/b".data.contains '/' = true) ∧
      toResponse (loadFile (fun _ => false) "a/b".data) = 500 ∧
      (handleRequest (fun _ => false) (Except.ok ()) "/list".data = 200 ∨
        handleRequest (fun _ => false) (Except.ok ()) "/list".data = 404 ∨
        handleRequest (fun _ => false) (Except.ok ()) "/list".data = 500) :=
  ⟨by decide,
    (server_responses (fun _ => false) (Except.ok ()) "a/b".data "/list".data).1 (by decide),
    (server_responses (fun _ => false) (Except.ok ()) "a/b".data "/list".data).2.2.2⟩

end Kartta
